import Mathlib

/-!
Verification of the jsontoggle core (`src/jsontoggle/jsontoggle_core.py`).

The embedding models JSON values as an inductive type, paths as the lists of
string parts that Python's `selected_path.split('.')` produces, the
`DictListHelper` static methods as pure functions (in-place mutation becomes
functional update; the returned `True`/`False` becomes `Option`/a result flag),
and `JsonToggleManager` state as a structure holding the working document
(`json_data`), the reconstructed original (`original_json_data`), the on-disk
document file contents (`docFile`) and the toggle directory (`store`, one
entry per file: its stem and its parsed JSON content, `none` when the file
content is not valid JSON).
-/

/-- JSON values as loaded by Python's `json` module: objects are insertion
ordered lists of key/value pairs (Python dicts preserve insertion order),
arrays are lists.  Numbers are modelled as integers; no claim depends on
float semantics. -/
inductive JSON where
  | null : JSON
  | bool : Bool → JSON
  | num : Int → JSON
  | str : String → JSON
  | arr : List JSON → JSON
  | obj : List (String × JSON) → JSON

/-- `true` exactly on Python `None` (JSON `null`); used to model `is None`
checks without needing decidable equality of whole documents. -/
def JSON.isNull : JSON → Bool
  | JSON.null => true
  | _ => false

/-- First-occurrence lookup in an association list: Python's `d.get(k)` /
`d[k]` (Python dicts cannot actually hold duplicate keys, so on the image of
real dicts this is exact). -/
def lookupKey {α : Type} : List (String × α) → String → Option α
  | [], _ => none
  | (k, v) :: rest, p => if k = p then some v else lookupKey rest p

/-- Python's `d[k] = v`: replace the value of an existing key in place
(insertion position kept), append a new key at the end. -/
def setKey {α : Type} : List (String × α) → String → α → List (String × α)
  | [], p, v => [(p, v)]
  | (k, w) :: rest, p, v =>
    if k = p then (p, v) :: rest else (k, w) :: setKey rest p v

/-- Python's `del d[k]` (first occurrence; exact for real dicts). -/
def eraseKey {α : Type} : List (String × α) → String → List (String × α)
  | [], _ => []
  | (k, w) :: rest, p => if k = p then rest else (k, w) :: eraseKey rest p

/-- Python's `int(part)` restricted to the plain decimal forms that the code
can meet: an optional single `'-'` or `'+'` sign followed by one or more
ASCII digits.  Returns `none` where Python raises `ValueError`. -/
def digitsVal : List Char → Nat → Option Nat
  | [], acc => some acc
  | c :: rest, acc =>
    if '0' ≤ c ∧ c ≤ '9' then digitsVal rest (acc * 10 + (c.toNat - '0'.toNat))
    else none

def pyInt? (s : String) : Option Int :=
  match s.data with
  | [] => none
  | '-' :: rest =>
    match rest with
    | [] => none
    | _ => (digitsVal rest 0).map (fun n => -(n : Int))
  | '+' :: rest =>
    match rest with
    | [] => none
    | _ => (digitsVal rest 0).map (fun n => (n : Int))
  | l => (digitsVal l 0).map (fun n => (n : Int))

/-- Python's `lst[i]` (negative indices count from the end; out of range is
`IndexError`, i.e. `none`). -/
def pyListGet? (xs : List JSON) (i : Int) : Option JSON :=
  if 0 ≤ i then xs.get? i.toNat
  else if (-i).toNat ≤ xs.length then xs.get? (xs.length - (-i).toNat)
  else none

namespace DictListHelper

/-- `DictListHelper.get` (jsontoggle_core.py lines 7-26): walk the path;
Python returns `None` (= `none` here) when a dict key is missing, a list
index is invalid, an intermediate is not a container, or the value reached
is JSON `null` (Python `None`) — all indistinguishable to the caller. -/
def get (d : JSON) : List String → Option JSON
  | [] => if d.isNull then none else some d
  | p :: rest =>
    match d with
    | JSON.obj kvs =>
      match lookupKey kvs p with
      | none => none
      | some v => if v.isNull then none else get v rest
    | JSON.arr xs =>
      match pyInt? p with
      | none => none
      | some i =>
        match pyListGet? xs i with
        | none => none
        | some v => if v.isNull then none else get v rest
    | _ => none

/-- `DictListHelper.has` (lines 72-93): existence check; list indices must
satisfy `0 <= index < len`. -/
def has (d : JSON) : List String → Bool
  | [] => true
  | p :: rest =>
    match d with
    | JSON.obj kvs =>
      match lookupKey kvs p with
      | none => false
      | some v => has v rest
    | JSON.arr xs =>
      match pyInt? p with
      | none => false
      | some i =>
        if 0 ≤ i then
          match xs.get? i.toNat with
          | none => false
          | some v => has v rest
        else false
    | _ => false

/-- Result of `DictListHelper.set`: `ok` = returned `True`, `fail` =
returned `False`, `exn` = raised an uncaught `IndexError` (negative index
out of range in the final `current[index] = value`, whose `try` only catches
`ValueError`). -/
inductive SetRes where
  | ok : SetRes
  | fail : SetRes
  | exn : SetRes
deriving DecidableEq

/-- Child selection of a navigation step of `DictListHelper.set`
(lines 54-65): a missing or `None` entry is replaced by a fresh `{}` before
descending; an existing non-`None` entry is descended into unchanged. -/
def childOf : Option JSON → JSON
  | none => JSON.obj []
  | some JSON.null => JSON.obj []
  | some c => c

/-- The last-part step of `DictListHelper.set` (lines 37-51). -/
def setFinal (d : JSON) (p : String) (v : JSON) : JSON × SetRes :=
  match d with
  | JSON.obj kvs => (JSON.obj (setKey kvs p v), SetRes.ok)
  | JSON.arr xs =>
    match pyInt? p with
    | none => (JSON.arr xs, SetRes.fail)
    | some i =>
      if 0 ≤ i then
        (JSON.arr ((xs ++ List.replicate (i.toNat + 1 - xs.length) JSON.null).set i.toNat v),
         SetRes.ok)
      else if (-i).toNat ≤ xs.length then
        (JSON.arr (xs.set (xs.length - (-i).toNat) v), SetRes.ok)
      else (JSON.arr xs, SetRes.exn)
  | other => (other, SetRes.fail)

/-- A navigation (non-final) step of `DictListHelper.set` (lines 53-69):
Python mutates the chosen child in place, so the parent is reassembled
around the continuation's result whatever the outcome — partial mutation
before a failure stays visible.  The list `try` catches both `ValueError`
and `IndexError`, so every failure here is `fail` (returned `False`). -/
def setNav (p : String) (k : JSON → JSON × SetRes) (d : JSON) : JSON × SetRes :=
  match d with
  | JSON.obj kvs =>
    let r := k (childOf (lookupKey kvs p))
    (JSON.obj (setKey kvs p r.1), r.2)
  | JSON.arr xs =>
    match pyInt? p with
    | none => (JSON.arr xs, SetRes.fail)
    | some i =>
      if 0 ≤ i then
        let xs1 := xs ++ List.replicate (i.toNat + 1 - xs.length) JSON.null
        let r := k (childOf (some (xs1.getD i.toNat JSON.null)))
        (JSON.arr (xs1.set i.toNat r.1), r.2)
      else if (-i).toNat ≤ xs.length then
        let j := xs.length - (-i).toNat
        let r := k (childOf (some (xs.getD j JSON.null)))
        (JSON.arr (xs.set j r.1), r.2)
      else (JSON.arr xs, SetRes.fail)
  | other => (other, SetRes.fail)

/-- `DictListHelper.set` (lines 28-70).  In-place mutation is modelled by
returning the (possibly partially) updated document together with the
result. -/
def set (d : JSON) : List String → JSON → JSON × SetRes
  | [], _ => (d, SetRes.fail)
  | [p], v => setFinal d p v
  | p :: q :: rest', v => setNav p (fun c => set c (q :: rest') v) d

/-- The last-part step of `DictListHelper.unset` (lines 106-118). -/
def unsetFinal (d : JSON) (p : String) : Option JSON :=
  match d with
  | JSON.obj kvs =>
    match lookupKey kvs p with
    | some _ => some (JSON.obj (eraseKey kvs p))
    | none => none
  | JSON.arr xs =>
    match pyInt? p with
    | none => none
    | some i =>
      if 0 ≤ i ∧ i.toNat < xs.length then some (JSON.arr (xs.eraseIdx i.toNat))
      else none
  | _ => none

/-- A navigation step of `DictListHelper.unset` (lines 120-134): pure
navigation (the in-place deletion deep down is reflected by reassembling the
parent on success; on failure nothing was mutated). -/
def unsetNav (p : String) (k : JSON → Option JSON) (d : JSON) : Option JSON :=
  match d with
  | JSON.obj kvs =>
    match lookupKey kvs p with
    | none => none
    | some c => (k c).map (fun c' => JSON.obj (setKey kvs p c'))
  | JSON.arr xs =>
    match pyInt? p with
    | none => none
    | some i =>
      if h : 0 ≤ i ∧ i.toNat < xs.length then
        (k (xs.get ⟨i.toNat, h.2⟩)).map (fun c' => JSON.arr (xs.set i.toNat c'))
      else none
  | _ => none

/-- `DictListHelper.unset` (lines 95-135): delete the node; navigation never
mutates, deletion happens only at the final step (outright `del`, no
placeholder). -/
def unset (d : JSON) : List String → Option JSON
  | [] => none
  | [p] => unsetFinal d p
  | p :: q :: rest' => unsetNav p (fun c => unset c (q :: rest')) d

end DictListHelper

/-- Python's `s.replace(c, rep)` for a single-character pattern `c`
(left-to-right; with a one-character pattern every occurrence is replaced
independently). -/
def replaceCh (c : Char) (rep : List Char) : List Char → List Char
  | [] => []
  | x :: rest =>
    if x = c then rep ++ replaceCh c rep rest else x :: replaceCh c rep rest

/-- Python's `s.replace('__', '.')`: leftmost, non-overlapping. -/
def replaceUU : List Char → List Char
  | [] => []
  | [x] => [x]
  | x :: y :: rest =>
    if x = '_' ∧ y = '_' then '.' :: replaceUU rest
    else x :: replaceUU (y :: rest)

/-- Python's `s.split(c)` for a one-character separator: empty chunks are
kept, `''.split(c) == ['']`. -/
def splitCh (c : Char) : List Char → List (List Char)
  | [] => [[]]
  | x :: rest =>
    if x = c then [] :: splitCh c rest
    else
      match splitCh c rest with
      | [] => [[x]]
      | g :: gs => (x :: g) :: gs

/-- `selected_path.split('.')` (toggle_node line 190). -/
def pySplitDot (p : String) : List String :=
  (splitCh '.' p.data).map (fun l => String.mk l)

/-- The on-disk stem of a toggle record for a display path:
`selected_path.replace('.', '_').replace('[', '_').replace(']', '')`
(toggle_node line 196, without the fixed `.json` suffix). -/
def toggleFileStem (p : String) : String :=
  String.mk (replaceCh ']' [] (replaceCh '[' ['_'] (replaceCh '.' ['_'] p.data)))

/-- Decoding a record filename back into path parts:
`toggle_file.stem.replace('__', '.').split('_')`
(_load_json_with_toggles_reverted line 171). -/
def decodeToggleStem (stem : String) : List String :=
  (splitCh '_' (replaceUU stem.data)).map (fun l => String.mk l)

/-- Outcome of `JsonToggleManager.toggle_node`.  `pathError`, `toggleError`
and `revertError` are the three `ValueError`s it raises; `exn` is an
exception escaping from inside the call (uncaught `IndexError` from
`DictListHelper.set`, or `json.load` failing on a corrupt record file). -/
inductive ToggleResult where
  | toggledOut : ToggleResult
  | reverted : ToggleResult
  | pathError : ToggleResult
  | toggleError : ToggleResult
  | revertError : ToggleResult
  | exn : ToggleResult
deriving DecidableEq

/-- State owned by a `JsonToggleManager`: the in-memory working document
`json_data`, the reconstructed `original_json_data`, the current contents of
the document file on disk (`docFile`; rewritten by `save_current_json`), and
the toggle directory `store` — one entry per `*.json` file, keyed by stem,
with `none` for a file whose content is not valid JSON. -/
structure Manager where
  json_data : JSON
  original_json_data : JSON
  docFile : JSON
  store : List (String × Option JSON)

/-- One iteration of the replay loop in `_load_json_with_toggles_reverted`
(lines 168-177): a file with undecodable JSON content raises inside the
`try` and is skipped with a warning; otherwise `DictListHelper.set` is
applied and its boolean result is ignored. -/
def loadStep (d : JSON) (rec : String × Option JSON) : JSON :=
  match rec.2 with
  | none => d
  | some v => (DictListHelper.set d (decodeToggleStem rec.1) v).1

/-- `_load_json_with_toggles_reverted` (lines 166-178): deep-copy the base
document and replay every record of the toggle directory over it. -/
def loadReverted (base : JSON) (recs : List (String × Option JSON)) : JSON :=
  recs.foldl loadStep base

/-- `JsonToggleManager.__init__` (lines 140-150): the document file is loaded
into `json_data`, and `original_json_data` is rebuilt by replaying the
toggle directory over a deep copy of it. -/
def JsonToggleManager.init (fileData : JSON) (recs : List (String × Option JSON)) : Manager :=
  { json_data := fileData
    original_json_data := loadReverted fileData recs
    docFile := fileData
    store := recs }

/-- `JsonToggleManager.toggle_node` (lines 189-221).  The guard re-raises
`ValueError` when the original lookup found nothing and `has` also fails;
otherwise the branch is chosen by the existence of the record file.  On
revert, `set` runs first and the record is deleted and the document saved
only on success.  On toggle out, the record file is written FIRST and then
`unset` runs; on `unset` failure the already-written record file stays. -/
def toggle_node (m : Manager) (p : String) : Manager × ToggleResult :=
  let parts := pySplitDot p
  let ov := DictListHelper.get m.original_json_data parts
  if ov.isNone && !(DictListHelper.has m.original_json_data parts) then
    (m, ToggleResult.pathError)
  else
    let stem := toggleFileStem p
    match lookupKey m.store stem with
    | some content =>
      match content with
      | none => (m, ToggleResult.exn)
      | some stored =>
        match DictListHelper.set m.json_data parts stored with
        | (d, DictListHelper.SetRes.ok) =>
          ({ m with json_data := d, docFile := d, store := eraseKey m.store stem },
           ToggleResult.reverted)
        | (d, DictListHelper.SetRes.fail) =>
          ({ m with json_data := d }, ToggleResult.revertError)
        | (d, DictListHelper.SetRes.exn) =>
          ({ m with json_data := d }, ToggleResult.exn)
    | none =>
      let w := ov.getD JSON.null
      let store1 := setKey m.store stem (some w)
      match DictListHelper.unset m.json_data parts with
      | some d =>
        ({ m with json_data := d, docFile := d, store := store1 },
         ToggleResult.toggledOut)
      | none => ({ m with store := store1 }, ToggleResult.toggleError)

/-- The document produced by `create_demo_file` (lines 223-248). -/
def demoJson : JSON :=
  JSON.obj
    [("featureFlags", JSON.obj
        [("newDashboard", JSON.bool true),
         ("darkMode", JSON.bool false),
         ("experimentalSearch", JSON.obj
            [("enabled", JSON.bool true),
             ("version", JSON.num 2)])]),
     ("settings", JSON.obj
        [("theme", JSON.str "dark"),
         ("notifications", JSON.obj
            [("email", JSON.bool true),
             ("sms", JSON.bool false)])]),
     ("users", JSON.arr
        [JSON.obj [("id", JSON.num 1), ("name", JSON.str "Alice")],
         JSON.obj [("id", JSON.num 2), ("name", JSON.str "Bob")]])]

/-- The top-level key sequence of an object; a cheap observer used to tell
two concrete documents apart. -/
def topKeys : JSON → List String
  | JSON.obj kvs => kvs.map Prod.fst
  | _ => []

/-- A display-path segment that survives the filename encoding unchanged:
nonempty and free of the characters the encoding translates or strips
(`.`, `_`, `[`, `]`). -/
def cleanSeg (s : String) : Prop :=
  s.data ≠ [] ∧ ∀ c ∈ s.data, c ≠ '.' ∧ c ≠ '_' ∧ c ≠ '[' ∧ c ≠ ']'

instance (s : String) : Decidable (cleanSeg s) := by
  unfold cleanSeg
  infer_instance

/-- Join character chunks with a separator character (the shape of a display
path at character level). -/
def joinWith (c : Char) : List (List Char) → List Char
  | [] => []
  | [s] => s
  | s :: rest => s ++ c :: joinWith c rest

/-- The display path whose `split('.')` is the given segment sequence. -/
def joinDotsS : List String → String
  | [] => ""
  | [s] => s
  | s :: rest => s ++ "." ++ joinDotsS rest

/-- The claim's `toFilename` over segment sequences: the filename stem that
`toggle_node` produces for the display path of those segments. -/
def toFilenameSeg (S : List String) : String :=
  toggleFileStem (joinDotsS S)

/-- Every part that is usable as a list index parses to a non-negative
index (i.e. no Python negative indexing along the path). -/
def NonNegParts (parts : List String) : Bool :=
  parts.all (fun s =>
    match pyInt? s with
    | some i => decide (0 ≤ i)
    | none => true)

/-- Structure of the working document along a path all of whose segments
are object keys, the final one being the LAST key of its object and holding
value `v` (with no duplicate of it earlier in that object). -/
def lastKeyPath : JSON → List String → JSON → Prop
  | _, [], _ => False
  | d, p :: rest, v =>
    match d, rest with
    | JSON.obj kvs, [] => ∃ l, kvs = l ++ [(p, v)] ∧ lookupKey l p = none
    | JSON.obj kvs, _ :: _ =>
      ∃ kvs', lookupKey kvs p = some (JSON.obj kvs') ∧ lastKeyPath (JSON.obj kvs') rest v
    | _, _ => False

/-- Structure of the working document along a path all of whose segments
are object keys that are present, the final key occurring only once in its
object. -/
def objPathUnique : JSON → List String → Prop
  | _, [] => False
  | d, p :: rest =>
    match d, rest with
    | JSON.obj kvs, [] =>
      (∃ v, lookupKey kvs p = some v) ∧ lookupKey (eraseKey kvs p) p = none
    | JSON.obj kvs, _ :: _ => ∃ c, lookupKey kvs p = some c ∧ objPathUnique c rest
    | _, _ => False

/-- Fresh manager over `{"a": 1, "b": 2}` (no toggle records). -/
def mgrAB : Manager :=
  JsonToggleManager.init (JSON.obj [("a", JSON.num 1), ("b", JSON.num 2)]) []

/-- Fresh manager over `{"a": [10, 20, 30]}`. -/
def mgrList : Manager :=
  JsonToggleManager.init (JSON.obj [("a", JSON.arr [JSON.num 10, JSON.num 20, JSON.num 30])]) []

/-- Fresh manager over `{"a": {"b": 1}, "a_b": 2}`: the display paths `a.b`
and `a_b` collide on the filename stem `a_b`. -/
def mgrCollide : Manager :=
  JsonToggleManager.init
    (JSON.obj [("a", JSON.obj [("b", JSON.num 1)]), ("a_b", JSON.num 2)]) []

/-- Fresh manager over `{"a": [5]}`. -/
def mgrNeg : Manager :=
  JsonToggleManager.init (JSON.obj [("a", JSON.arr [JSON.num 5])]) []

/-- Fresh manager over `{"a": null}`. -/
def mgrNull : Manager :=
  JsonToggleManager.init (JSON.obj [("a", JSON.null)]) []

/-- Fresh manager over the demo document. -/
def mgrDemo : Manager :=
  JsonToggleManager.init demoJson []

section AssocListLemmas

variable {α : Type}

theorem lookupKey_setKey_self (l : List (String × α)) (k : String) (v : α) :
    lookupKey (setKey l k v) k = some v := by
  induction l with
  | nil => simp [setKey, lookupKey]
  | cons kv rest ih =>
    obtain ⟨k', w⟩ := kv
    by_cases h : k' = k
    · simp [setKey, lookupKey, h]
    · simp [setKey, lookupKey, h, ih]

theorem setKey_lookup_eq_self (l : List (String × α)) (k : String) (v : α)
    (h : lookupKey l k = some v) : setKey l k v = l := by
  induction l with
  | nil => simp [lookupKey] at h
  | cons kv rest ih =>
    obtain ⟨k', w⟩ := kv
    by_cases hk : k' = k
    · subst hk
      simp [lookupKey] at h
      simp [setKey, h]
    · simp [lookupKey, hk] at h
      simp [setKey, hk, ih h]

theorem setKey_of_lookup_none (l : List (String × α)) (k : String) (v : α)
    (h : lookupKey l k = none) : setKey l k v = l ++ [(k, v)] := by
  induction l with
  | nil => simp [setKey]
  | cons kv rest ih =>
    obtain ⟨k', w⟩ := kv
    by_cases hk : k' = k
    · simp [lookupKey, hk] at h
    · simp [lookupKey, hk] at h
      simp [setKey, hk, ih h]

theorem setKey_setKey (l : List (String × α)) (k : String) (v w : α) :
    setKey (setKey l k v) k w = setKey l k w := by
  induction l with
  | nil => simp [setKey]
  | cons kv rest ih =>
    obtain ⟨k', u⟩ := kv
    by_cases hk : k' = k
    · simp [setKey, hk]
    · simp [setKey, hk, ih]

theorem lookupKey_append_of_none (l l' : List (String × α)) (k : String)
    (h : lookupKey l k = none) : lookupKey (l ++ l') k = lookupKey l' k := by
  induction l with
  | nil => simp
  | cons kv rest ih =>
    obtain ⟨k', w⟩ := kv
    by_cases hk : k' = k
    · simp [lookupKey, hk] at h
    · simp [lookupKey, hk] at h ⊢
      exact ih h

theorem eraseKey_append_singleton (l : List (String × α)) (k : String) (v : α)
    (h : lookupKey l k = none) : eraseKey (l ++ [(k, v)]) k = l := by
  induction l with
  | nil => simp [eraseKey]
  | cons kv rest ih =>
    obtain ⟨k', w⟩ := kv
    by_cases hk : k' = k
    · simp [lookupKey, hk] at h
    · simp [lookupKey, hk] at h
      simp [eraseKey, hk, ih h]

theorem lookupKey_eq_none_of_not_mem (l : List (String × α)) (k : String)
    (h : k ∉ l.map Prod.fst) : lookupKey l k = none := by
  induction l with
  | nil => rfl
  | cons kv rest ih =>
    obtain ⟨k', w⟩ := kv
    rw [List.map_cons, List.mem_cons] at h
    push_neg at h
    have hk : k' ≠ k := fun hh => h.1 hh.symm
    rw [lookupKey, if_neg hk]
    exact ih h.2

theorem lookupKey_eraseKey_of_nodup (l : List (String × α)) (k : String)
    (h : (l.map Prod.fst).Nodup) : lookupKey (eraseKey l k) k = none := by
  induction l with
  | nil => rfl
  | cons kv rest ih =>
    obtain ⟨k', w⟩ := kv
    rw [List.map_cons, List.nodup_cons] at h
    by_cases hk : k' = k
    · subst hk
      rw [eraseKey, if_pos rfl]
      exact lookupKey_eq_none_of_not_mem rest k' h.1
    · rw [eraseKey, if_neg hk, lookupKey, if_neg hk]
      exact ih h.2

end AssocListLemmas

section EncodingLemmas

theorem replaceCh_append (c : Char) (rep : List Char) (s t : List Char) :
    replaceCh c rep (s ++ t) = replaceCh c rep s ++ replaceCh c rep t := by
  induction s with
  | nil => rfl
  | cons x s' ih =>
    by_cases hx : x = c
    · simp [replaceCh, hx, ih]
    · simp [replaceCh, hx, ih]

theorem replaceCh_of_not_mem (c : Char) (rep : List Char) (s : List Char)
    (h : ∀ x ∈ s, x ≠ c) : replaceCh c rep s = s := by
  induction s with
  | nil => rfl
  | cons x s' ih =>
    have hx : x ≠ c := h x (by simp)
    simp [replaceCh, hx]
    exact ih (fun y hy => h y (by simp [hy]))

theorem replaceCh_joinWith (c d : Char) (L : List (List Char))
    (h : ∀ s ∈ L, ∀ x ∈ s, x ≠ c) :
    replaceCh c [d] (joinWith c L) = joinWith d L := by
  induction L with
  | nil => rfl
  | cons s rest ih =>
    cases rest with
    | nil =>
      exact replaceCh_of_not_mem c [d] s (h s (by simp))
    | cons t rest' =>
      rw [show joinWith c (s :: t :: rest') = s ++ c :: joinWith c (t :: rest') from rfl]
      rw [replaceCh_append, replaceCh_of_not_mem c [d] s (h s (by simp))]
      rw [show replaceCh c [d] (c :: joinWith c (t :: rest')) =
            d :: replaceCh c [d] (joinWith c (t :: rest')) by simp [replaceCh]]
      rw [ih (fun u hu => h u (by simp [hu]))]
      rfl

theorem mem_joinWith (c : Char) (L : List (List Char)) (x : Char)
    (hx : x ∈ joinWith c L) : x = c ∨ ∃ s ∈ L, x ∈ s := by
  induction L with
  | nil => simp [joinWith] at hx
  | cons s rest ih =>
    cases rest with
    | nil =>
      right
      exact ⟨s, by simp, hx⟩
    | cons t rest' =>
      rw [show joinWith c (s :: t :: rest') = s ++ c :: joinWith c (t :: rest') from rfl]
        at hx
      rw [List.mem_append] at hx
      rcases hx with hx | hx
      · exact Or.inr ⟨s, by simp, hx⟩
      · rw [List.mem_cons] at hx
        rcases hx with hx | hx
        · exact Or.inl hx
        · rcases ih hx with hc | ⟨u, hu, hxu⟩
          · exact Or.inl hc
          · exact Or.inr ⟨u, by simp [hu], hxu⟩

theorem replaceUU_append_free (s t : List Char) (h : ∀ x ∈ s, x ≠ '_') :
    replaceUU (s ++ t) = s ++ replaceUU t := by
  induction s with
  | nil => rfl
  | cons x s' ih =>
    have hx : x ≠ '_' := h x (by simp)
    have h' : ∀ y ∈ s', y ≠ '_' := fun y hy => h y (by simp [hy])
    cases hst : s' ++ t with
    | nil =>
      obtain ⟨hs, ht⟩ := List.append_eq_nil.mp hst
      subst hs
      subst ht
      rfl
    | cons y u =>
      show replaceUU (x :: (s' ++ t)) = (x :: s') ++ replaceUU t
      rw [hst]
      rw [show replaceUU (x :: y :: u) =
            if x = '_' ∧ y = '_' then '.' :: replaceUU u
            else x :: replaceUU (y :: u) from rfl]
      rw [if_neg (fun hc => hx hc.1), ← hst, ih h']
      rfl

theorem replaceUU_free (s : List Char) (h : ∀ x ∈ s, x ≠ '_') :
    replaceUU s = s := by
  have h2 := replaceUU_append_free s [] h
  rw [List.append_nil] at h2
  rw [h2, show replaceUU ([] : List Char) = [] from rfl, List.append_nil]

theorem replaceUU_joinWith (L : List (List Char))
    (hne : ∀ s ∈ L, s ≠ []) (hfree : ∀ s ∈ L, ∀ x ∈ s, x ≠ '_') :
    replaceUU (joinWith '_' L) = joinWith '_' L := by
  induction L with
  | nil => rfl
  | cons s rest ih =>
    cases rest with
    | nil => exact replaceUU_free s (hfree s (by simp))
    | cons t rest' =>
      rw [show joinWith '_' (s :: t :: rest') =
            s ++ '_' :: joinWith '_' (t :: rest') from rfl]
      rw [replaceUU_append_free s _ (hfree s (by simp))]
      have htne : t ≠ [] := hne t (by simp)
      obtain ⟨y, t', rfl⟩ : ∃ y t', t = y :: t' := by
        cases t with
        | nil => exact absurd rfl htne
        | cons y t' => exact ⟨y, t', rfl⟩
      have hy : y ≠ '_' := hfree (y :: t') (by simp) y (by simp)
      obtain ⟨u, hu⟩ : ∃ u, joinWith '_' ((y :: t') :: rest') = y :: u := by
        cases rest' with
        | nil => exact ⟨t', rfl⟩
        | cons r rest'' => exact ⟨t' ++ '_' :: joinWith '_' (r :: rest''), rfl⟩
      rw [hu]
      rw [show replaceUU ('_' :: y :: u) =
            if '_' = '_' ∧ y = '_' then '.' :: replaceUU u
            else '_' :: replaceUU (y :: u) from rfl]
      rw [if_neg (fun hc => hy hc.2), ← hu]
      rw [ih (fun v hv => hne v (by simp [hv])) (fun v hv => hfree v (by simp [hv]))]

theorem splitCh_free (c : Char) (s : List Char) (h : ∀ x ∈ s, x ≠ c) :
    splitCh c s = [s] := by
  induction s with
  | nil => rfl
  | cons x s' ih =>
    have hx : x ≠ c := h x (by simp)
    rw [splitCh, if_neg hx, ih (fun y hy => h y (by simp [hy]))]

theorem splitCh_append_sep (c : Char) (s t : List Char) (h : ∀ x ∈ s, x ≠ c) :
    splitCh c (s ++ c :: t) = s :: splitCh c t := by
  induction s with
  | nil => simp [splitCh]
  | cons x s' ih =>
    have hx : x ≠ c := h x (by simp)
    rw [List.cons_append, splitCh, if_neg hx, ih (fun y hy => h y (by simp [hy]))]

theorem splitCh_joinWith (c : Char) (L : List (List Char))
    (h : ∀ s ∈ L, ∀ x ∈ s, x ≠ c) (hne : L ≠ []) :
    splitCh c (joinWith c L) = L := by
  induction L with
  | nil => exact absurd rfl hne
  | cons s rest ih =>
    cases rest with
    | nil => exact splitCh_free c s (h s (by simp))
    | cons t rest' =>
      rw [show joinWith c (s :: t :: rest') = s ++ c :: joinWith c (t :: rest') from rfl]
      rw [splitCh_append_sep c s _ (h s (by simp))]
      rw [ih (fun u hu => h u (by simp [hu])) (by simp)]

theorem data_joinDotsS (S : List String) :
    (joinDotsS S).data = joinWith '.' (S.map String.data) := by
  induction S with
  | nil => rfl
  | cons s rest ih =>
    cases rest with
    | nil => rfl
    | cons t rest' =>
      rw [show joinDotsS (s :: t :: rest') = s ++ "." ++ joinDotsS (t :: rest') from rfl]
      rw [String.data_append, String.data_append, ih,
        show (".").data = ['.'] from rfl]
      simp [joinWith]

/-- The amended round trip: a segment sequence survives
`fromFilename ∘ toFilename` when every segment is nonempty and free of
`.`, `_`, `[`, `]`. -/
theorem decode_toFilenameSeg (S : List String) (hne : S ≠ [])
    (hclean : ∀ s ∈ S, cleanSeg s) : decodeToggleStem (toFilenameSeg S) = S := by
  have hLne : ∀ l ∈ S.map String.data, l ≠ [] := by
    intro l hl
    rw [List.mem_map] at hl
    obtain ⟨s, hs, rfl⟩ := hl
    exact (hclean s hs).1
  have hLdot : ∀ l ∈ S.map String.data, ∀ x ∈ l, x ≠ '.' := by
    intro l hl x hx
    rw [List.mem_map] at hl
    obtain ⟨s, hs, rfl⟩ := hl
    exact ((hclean s hs).2 x hx).1
  have hLund : ∀ l ∈ S.map String.data, ∀ x ∈ l, x ≠ '_' := by
    intro l hl x hx
    rw [List.mem_map] at hl
    obtain ⟨s, hs, rfl⟩ := hl
    exact ((hclean s hs).2 x hx).2.1
  have hLbr : ∀ l ∈ S.map String.data, ∀ x ∈ l, x ≠ '[' := by
    intro l hl x hx
    rw [List.mem_map] at hl
    obtain ⟨s, hs, rfl⟩ := hl
    exact ((hclean s hs).2 x hx).2.2.1
  have hLbr2 : ∀ l ∈ S.map String.data, ∀ x ∈ l, x ≠ ']' := by
    intro l hl x hx
    rw [List.mem_map] at hl
    obtain ⟨s, hs, rfl⟩ := hl
    exact ((hclean s hs).2 x hx).2.2.2
  have hjund : ∀ x ∈ joinWith '_' (S.map String.data), x ≠ '[' ∧ x ≠ ']' := by
    intro x hx
    rcases mem_joinWith '_' _ x hx with hc | ⟨l, hl, hxl⟩
    · subst hc
      exact ⟨by decide, by decide⟩
    · exact ⟨hLbr l hl x hxl, hLbr2 l hl x hxl⟩
  unfold decodeToggleStem toFilenameSeg toggleFileStem
  rw [show (String.mk (replaceCh ']' [] (replaceCh '[' ['_']
        (replaceCh '.' ['_'] (joinDotsS S).data)))).data =
      replaceCh ']' [] (replaceCh '[' ['_']
        (replaceCh '.' ['_'] (joinDotsS S).data)) from rfl]
  rw [data_joinDotsS, replaceCh_joinWith '.' '_' _ hLdot]
  rw [replaceCh_of_not_mem '[' ['_'] _ (fun x hx => (hjund x hx).1)]
  rw [replaceCh_of_not_mem ']' [] _ (fun x hx => (hjund x hx).2)]
  rw [replaceUU_joinWith _ hLne hLund]
  rw [splitCh_joinWith '_' _ hLund (by simpa using hne)]
  rw [List.map_map]
  rw [show (String.mk ∘ String.data) = id from rfl]
  exact List.map_id S

/-- `parse` really produces these segment sequences: splitting the joined
display path on `.` recovers them. -/
theorem parse_joinDotsS (S : List String) (hne : S ≠ [])
    (hclean : ∀ s ∈ S, cleanSeg s) : pySplitDot (joinDotsS S) = S := by
  have hLdot : ∀ l ∈ S.map String.data, ∀ x ∈ l, x ≠ '.' := by
    intro l hl x hx
    rw [List.mem_map] at hl
    obtain ⟨s, hs, rfl⟩ := hl
    exact ((hclean s hs).2 x hx).1
  unfold pySplitDot
  rw [data_joinDotsS, splitCh_joinWith '.' _ hLdot (by simpa using hne)]
  rw [List.map_map]
  rw [show (String.mk ∘ String.data) = id from rfl]
  exact List.map_id S

end EncodingLemmas

theorem splitCh_ne_nil (c : Char) (s : List Char) : splitCh c s ≠ [] := by
  induction s with
  | nil => simp [splitCh]
  | cons x rest ih =>
    by_cases hx : x = c
    · simp [splitCh, hx]
    · rw [splitCh, if_neg hx]
      rcases hsp : splitCh c rest with _ | ⟨g, gs⟩
      · simp
      · simp

theorem pySplitDot_ne_nil (p : String) : pySplitDot p ≠ [] := by
  unfold pySplitDot
  simp [splitCh_ne_nil]

section ToggleBranchLemmas

theorem toggle_node_guard (m : Manager) (p : String)
    (hget : DictListHelper.get m.original_json_data (pySplitDot p) = none)
    (hhas : DictListHelper.has m.original_json_data (pySplitDot p) = false) :
    toggle_node m p = (m, ToggleResult.pathError) := by
  simp [toggle_node, hget, hhas]

theorem toggle_node_out (m : Manager) (p : String) (w : JSON) (d : JSON)
    (hget : DictListHelper.get m.original_json_data (pySplitDot p) = some w)
    (hstore : lookupKey m.store (toggleFileStem p) = none)
    (hunset : DictListHelper.unset m.json_data (pySplitDot p) = some d) :
    toggle_node m p =
      ({ m with json_data := d, docFile := d,
                store := setKey m.store (toggleFileStem p) (some w) },
       ToggleResult.toggledOut) := by
  simp [toggle_node, hget, hstore, hunset]

theorem toggle_node_out_fail (m : Manager) (p : String) (w : JSON)
    (hget : DictListHelper.get m.original_json_data (pySplitDot p) = some w)
    (hstore : lookupKey m.store (toggleFileStem p) = none)
    (hunset : DictListHelper.unset m.json_data (pySplitDot p) = none) :
    toggle_node m p =
      ({ m with store := setKey m.store (toggleFileStem p) (some w) },
       ToggleResult.toggleError) := by
  simp [toggle_node, hget, hstore, hunset]

theorem toggle_node_rev (m : Manager) (p : String) (w sv : JSON) (d : JSON)
    (hget : DictListHelper.get m.original_json_data (pySplitDot p) = some w)
    (hstore : lookupKey m.store (toggleFileStem p) = some (some sv))
    (hset : DictListHelper.set m.json_data (pySplitDot p) sv = (d, DictListHelper.SetRes.ok)) :
    toggle_node m p =
      ({ m with json_data := d, docFile := d,
                store := eraseKey m.store (toggleFileStem p) },
       ToggleResult.reverted) := by
  simp [toggle_node, hget, hstore, hset]

theorem toggle_node_rev_fail (m : Manager) (p : String) (w sv : JSON) (d : JSON)
    (hget : DictListHelper.get m.original_json_data (pySplitDot p) = some w)
    (hstore : lookupKey m.store (toggleFileStem p) = some (some sv))
    (hset : DictListHelper.set m.json_data (pySplitDot p) sv = (d, DictListHelper.SetRes.fail)) :
    toggle_node m p = ({ m with json_data := d }, ToggleResult.revertError) := by
  simp [toggle_node, hget, hstore, hset]

theorem toggle_node_rev_exn (m : Manager) (p : String) (w sv : JSON) (d : JSON)
    (hget : DictListHelper.get m.original_json_data (pySplitDot p) = some w)
    (hstore : lookupKey m.store (toggleFileStem p) = some (some sv))
    (hset : DictListHelper.set m.json_data (pySplitDot p) sv = (d, DictListHelper.SetRes.exn)) :
    toggle_node m p = ({ m with json_data := d }, ToggleResult.exn) := by
  simp [toggle_node, hget, hstore, hset]

theorem toggle_node_corrupt (m : Manager) (p : String) (w : JSON)
    (hget : DictListHelper.get m.original_json_data (pySplitDot p) = some w)
    (hstore : lookupKey m.store (toggleFileStem p) = some none) :
    toggle_node m p = (m, ToggleResult.exn) := by
  simp [toggle_node, hget, hstore]

/-- When the path resolves per `has`, the guard cannot fire: whatever else
happens, the outcome is never the `PathNotFound` error. -/
theorem toggle_node_ne_pathError (m : Manager) (p : String)
    (hhas : DictListHelper.has m.original_json_data (pySplitDot p) = true) :
    (toggle_node m p).2 ≠ ToggleResult.pathError := by
  simp only [toggle_node, hhas, Bool.not_true, Bool.and_false, Bool.false_eq_true, if_false]
  rcases hlk : lookupKey m.store (toggleFileStem p) with _ | content
  · rcases hu : DictListHelper.unset m.json_data (pySplitDot p) with _ | d
    · simp [hu]
    · simp [hu]
  · rcases content with _ | sv
    · simp
    · rcases hs : DictListHelper.set m.json_data (pySplitDot p) sv with ⟨d, res⟩
      rcases res <;> simp [hs]

end ToggleBranchLemmas

section ListHelpers

variable {α : Type}

theorem lget_set_self (l : List α) (n : Nat) (a : α) (h : n < l.length) :
    (l.set n a).get? n = some a := by
  induction l generalizing n with
  | nil => simp at h
  | cons x xs ih =>
    cases n with
    | zero => rfl
    | succ n' =>
      simp at h
      exact ih n' (by omega)

theorem lset_getD_eq (l : List α) (n : Nat) (d : α) (h : n < l.length) :
    l.set n (l.getD n d) = l := by
  induction l generalizing n with
  | nil => simp at h
  | cons x xs ih =>
    cases n with
    | zero => simp [List.getD]
    | succ n' =>
      simp at h
      simp [List.getD] at ih ⊢
      exact ih n' (by omega)

theorem lgetD_replicate_self (a : α) (k m : Nat) :
    (List.replicate k a).getD m a = a := by
  induction k generalizing m with
  | zero => simp [List.getD]
  | succ k' ih =>
    cases m with
    | zero => rfl
    | succ m' => exact ih m'

end ListHelpers

namespace DictListHelper

theorem childOf_some_not_null (c : JSON) (h : c.isNull = false) :
    childOf (some c) = c := by
  cases c <;> first | rfl | simp [JSON.isNull] at h

theorem isNull_eq (c : JSON) (h : c.isNull = true) : c = JSON.null := by
  cases c <;> first | rfl | simp [JSON.isNull] at h

theorem set_cons₂ (d : JSON) (p q : String) (rest' : List String) (v : JSON) :
    set d (p :: q :: rest') v = setNav p (fun c => set c (q :: rest') v) d := rfl

theorem set_fresh_ok (parts : List String) (v : JSON) (h : parts ≠ []) :
    (set (JSON.obj []) parts v).2 = SetRes.ok := by
  induction parts with
  | nil => exact absurd rfl h
  | cons p rest ih =>
    cases rest with
    | nil => rfl
    | cons q rest' => exact ih (by simp)

theorem set_atomic (d : JSON) (parts : List String) (v : JSON)
    (h : (set d parts v).2 ≠ SetRes.ok) : (set d parts v).1 = d := by
  induction parts generalizing d with
  | nil => rfl
  | cons p rest ih =>
    cases rest with
    | nil =>
      cases d with
      | arr xs =>
        rcases hpi : pyInt? p with _ | i
        · simp [set, setFinal, hpi]
        · by_cases hnn : 0 ≤ i
          · exact absurd (by simp [set, setFinal, hpi, hnn]) h
          · by_cases hin : (-i).toNat ≤ xs.length
            · exact absurd (by simp [set, setFinal, hpi, hnn, hin]) h
            · simp [set, setFinal, hpi, hnn, hin]
      | obj kvs => exact absurd rfl h
      | null => rfl
      | bool b => rfl
      | num n => rfl
      | str s => rfl
    | cons q rest' =>
      rw [set_cons₂] at h ⊢
      cases d with
      | obj kvs =>
        simp only [setNav] at h ⊢
        rcases hlk : lookupKey kvs p with _ | c
        · rw [hlk] at h
          exact absurd (set_fresh_ok (q :: rest') v (by simp)) h
        · rw [hlk] at h
          rcases hc : c.isNull with _ | _
          · rw [childOf_some_not_null c hc] at h ⊢
            rw [ih _ h, setKey_lookup_eq_self kvs p c hlk]
          · rw [isNull_eq c hc] at h
            exact absurd (set_fresh_ok (q :: rest') v (by simp)) h
      | arr xs =>
        simp only [setNav] at h ⊢
        rcases hpi : pyInt? p with _ | i
        · simp [hpi] at h ⊢
        · by_cases hnn : 0 ≤ i
          · by_cases hlen : i.toNat < xs.length
            · have hxs1 : xs ++ List.replicate (i.toNat + 1 - xs.length) JSON.null = xs := by
                have hz : i.toNat + 1 - xs.length = 0 := by omega
                simp [hz]
              rcases hc : (xs.getD i.toNat JSON.null).isNull with _ | _
              · simp only [hpi, hnn, if_true, hxs1, childOf_some_not_null _ hc] at h ⊢
                rw [ih _ h]
                exact congrArg JSON.arr (lset_getD_eq xs i.toNat JSON.null hlen)
              · simp only [hpi, hnn, if_true, hxs1, isNull_eq _ hc] at h
                exact absurd (set_fresh_ok (q :: rest') v (by simp)) h
            · have hnull : (xs ++ List.replicate (i.toNat + 1 - xs.length) JSON.null).getD
                  i.toNat JSON.null = JSON.null := by
                rw [List.getD_append_right _ _ _ _ (by omega)]
                exact lgetD_replicate_self JSON.null _ _
              simp only [hpi, hnn, if_true, hnull] at h
              exact absurd (set_fresh_ok (q :: rest') v (by simp)) h
          · by_cases hin : (-i).toNat ≤ xs.length
            · have hjlen : xs.length - (-i).toNat < xs.length := by
                have h1 : 1 ≤ (-i).toNat := by omega
                omega
              rcases hc : (xs.getD (xs.length - (-i).toNat) JSON.null).isNull with _ | _
              · simp only [hpi, hnn, hin, if_false, if_true,
                  childOf_some_not_null _ hc] at h ⊢
                rw [ih _ h]
                exact congrArg JSON.arr (lset_getD_eq xs _ JSON.null hjlen)
              · simp only [hpi, hnn, hin, if_false, if_true, isNull_eq _ hc] at h
                exact absurd (set_fresh_ok (q :: rest') v (by simp)) h
            · simp [hpi, hnn, hin] at h ⊢
      | null => rfl
      | bool b => rfl
      | num n => rfl
      | str s => rfl

theorem has_obj_cons (kvs : List (String × JSON)) (p : String) (rest : List String) :
    has (JSON.obj kvs) (p :: rest) =
      (match lookupKey kvs p with
       | none => false
       | some v => has v rest) := rfl

theorem has_arr_cons (xs : List JSON) (p : String) (rest : List String) :
    has (JSON.arr xs) (p :: rest) =
      (match pyInt? p with
       | none => false
       | some i =>
         if 0 ≤ i then
           match xs.get? i.toNat with
           | none => false
           | some v => has v rest
         else false) := rfl

theorem nonneg_head (p : String) (rest : List String)
    (h : NonNegParts (p :: rest) = true) (i : Int) (hpi : pyInt? p = some i) :
    0 ≤ i := by
  unfold NonNegParts at h
  rw [List.all_cons, Bool.and_eq_true] at h
  rw [hpi] at h
  exact of_decide_eq_true h.1

theorem nonneg_tail (p : String) (rest : List String)
    (h : NonNegParts (p :: rest) = true) : NonNegParts rest = true := by
  unfold NonNegParts at h ⊢
  rw [List.all_cons, Bool.and_eq_true] at h
  exact h.2

theorem set_ok_has (d : JSON) (parts : List String) (v : JSON)
    (hok : (set d parts v).2 = SetRes.ok) (hnn : NonNegParts parts = true)
    (hne : parts ≠ []) : has (set d parts v).1 parts = true := by
  induction parts generalizing d with
  | nil => exact absurd rfl hne
  | cons p rest ih =>
    cases rest with
    | nil =>
      cases d with
      | obj kvs =>
        rw [show set (JSON.obj kvs) [p] v = (JSON.obj (setKey kvs p v), SetRes.ok) from rfl]
        rw [has_obj_cons, lookupKey_setKey_self]
        rfl
      | arr xs =>
        rcases hpi : pyInt? p with _ | i
        · rw [show set (JSON.arr xs) [p] v = setFinal (JSON.arr xs) p v from rfl,
            setFinal] at hok
          simp [hpi] at hok
        · have hge : 0 ≤ i := nonneg_head p [] hnn i hpi
          rw [show set (JSON.arr xs) [p] v = setFinal (JSON.arr xs) p v from rfl, setFinal]
          simp only [hpi, hge, if_true]
          rw [has_arr_cons]
          simp only [hpi, hge, if_true]
          rw [lget_set_self _ _ _ (by simp [List.length_replicate]; omega)]
          rfl
      | null => simp [set, setFinal] at hok
      | bool b => simp [set, setFinal] at hok
      | num n => simp [set, setFinal] at hok
      | str s => simp [set, setFinal] at hok
    | cons q rest' =>
      rw [set_cons₂] at hok ⊢
      cases d with
      | obj kvs =>
        simp only [setNav] at hok ⊢
        rw [has_obj_cons, lookupKey_setKey_self]
        exact ih (childOf (lookupKey kvs p)) hok (nonneg_tail p _ hnn) (by simp)
      | arr xs =>
        simp only [setNav] at hok ⊢
        rcases hpi : pyInt? p with _ | i
        · simp [hpi] at hok
        · have hge : 0 ≤ i := nonneg_head p _ hnn i hpi
          simp only [hpi, hge, if_true] at hok ⊢
          rw [has_arr_cons]
          simp only [hpi, hge, if_true]
          rw [lget_set_self _ _ _ (by simp [List.length_replicate]; omega)]
          exact ih _ hok (nonneg_tail p _ hnn) (by simp)
      | null => simp [setNav] at hok
      | bool b => simp [setNav] at hok
      | num n => simp [setNav] at hok
      | str s => simp [setNav] at hok

theorem unset_cons₂ (d : JSON) (p q : String) (rest' : List String) :
    unset d (p :: q :: rest') = unsetNav p (fun c => unset c (q :: rest')) d := rfl

/-- Under `objPathUnique`, unsetting succeeds and the node is gone from the
result: the deletion really removes the addressed key. -/
theorem unset_objPathUnique (d : JSON) (parts : List String)
    (h : objPathUnique d parts) :
    ∃ kvs'', unset d parts = some (JSON.obj kvs'') ∧
      has (JSON.obj kvs'') parts = false := by
  induction parts generalizing d with
  | nil => exact h.elim
  | cons p rest ih =>
    cases rest with
    | nil =>
      cases d with
      | obj kvs =>
        obtain ⟨⟨v, hv⟩, hu⟩ := h
        refine ⟨eraseKey kvs p, ?_, ?_⟩
        · rw [show unset (JSON.obj kvs) [p] = unsetFinal (JSON.obj kvs) p from rfl,
            unsetFinal]
          simp [hv]
        · rw [has_obj_cons, hu]
      | null => exact h.elim
      | bool b => exact h.elim
      | num n => exact h.elim
      | str s => exact h.elim
      | arr xs => exact h.elim
    | cons q rest' =>
      cases d with
      | obj kvs =>
        obtain ⟨c, hc, hrec⟩ := h
        obtain ⟨kvs'', hc', hhc'⟩ := ih c hrec
        refine ⟨setKey kvs p (JSON.obj kvs''), ?_, ?_⟩
        · rw [unset_cons₂, unsetNav]
          simp [hc, hc']
        · rw [has_obj_cons, lookupKey_setKey_self]
          exact hhc'
      | null => exact h.elim
      | bool b => exact h.elim
      | num n => exact h.elim
      | str s => exact h.elim
      | arr xs => exact h.elim

/-- Under `lastKeyPath`, unset-then-set is the identity on the working
document: deleting the last key of its object and re-inserting the same
value appends it back in the original position. -/
theorem unset_set_roundtrip (d : JSON) (parts : List String) (v : JSON)
    (h : lastKeyPath d parts v) :
    ∃ kvs'', unset d parts = some (JSON.obj kvs'') ∧
      set (JSON.obj kvs'') parts v = (d, SetRes.ok) := by
  induction parts generalizing d with
  | nil => exact h.elim
  | cons p rest ih =>
    cases rest with
    | nil =>
      cases d with
      | obj kvs =>
        obtain ⟨l, hkvs, hl⟩ := h
        have hv : lookupKey kvs p = some v := by
          rw [hkvs, lookupKey_append_of_none l _ p hl]
          simp [lookupKey]
        refine ⟨l, ?_, ?_⟩
        · rw [show unset (JSON.obj kvs) [p] = unsetFinal (JSON.obj kvs) p from rfl,
            unsetFinal]
          simp [hv]
          rw [hkvs]
          exact eraseKey_append_singleton l p v hl
        · rw [show set (JSON.obj l) [p] v = (JSON.obj (setKey l p v), SetRes.ok) from rfl]
          rw [setKey_of_lookup_none l p v hl, hkvs]
      | null => exact h.elim
      | bool b => exact h.elim
      | num n => exact h.elim
      | str s => exact h.elim
      | arr xs => exact h.elim
    | cons q rest' =>
      cases d with
      | obj kvs =>
        obtain ⟨kvs', hlk, hrec⟩ := h
        obtain ⟨kvs'', hu, hs⟩ := ih (JSON.obj kvs') hrec
        refine ⟨setKey kvs p (JSON.obj kvs''), ?_, ?_⟩
        · rw [unset_cons₂, unsetNav]
          simp [hlk, hu]
        · rw [set_cons₂, setNav]
          simp only [lookupKey_setKey_self]
          rw [show childOf (some (JSON.obj kvs'')) = JSON.obj kvs'' from rfl, hs]
          rw [setKey_setKey, setKey_lookup_eq_self kvs p _ hlk]
      | null => exact h.elim
      | bool b => exact h.elim
      | num n => exact h.elim
      | str s => exact h.elim
      | arr xs => exact h.elim

/-- `get` never returns a JSON `null` value: a stored null is reported
exactly like an absent node. -/
theorem get_ne_some_null (parts : List String) (d : JSON) :
    get d parts ≠ some JSON.null := by
  induction parts generalizing d with
  | nil => cases d <;> simp [get, JSON.isNull]
  | cons p rest ih =>
    cases d with
    | obj kvs =>
      simp only [get]
      rcases hlk : lookupKey kvs p with _ | v <;> simp only [hlk]
      · simp
      · by_cases hv : v.isNull = true
        · simp [hv]
        · simp only [hv, if_false]
          exact ih v
    | arr xs =>
      simp only [get]
      rcases hpi : pyInt? p with _ | i <;> simp only [hpi]
      · simp
      · rcases hg : pyListGet? xs i with _ | v <;> simp only [hg]
        · simp
        · by_cases hv : v.isNull = true
          · simp [hv]
          · simp only [hv, if_false]
            exact ih v
    | null => simp [get]
    | bool b => simp [get]
    | num n => simp [get]
    | str s => simp [get]

/-- Once `get` answers `none` for a prefix, it answers `none` for every
extension of that path: absent, null-valued and null-blocked prefixes are
absorbing. -/
theorem get_none_append (parts rest : List String) (d : JSON)
    (h : get d parts = none) : get d (parts ++ rest) = none := by
  induction parts generalizing d with
  | nil =>
    cases d <;> simp [get, JSON.isNull] at h
    cases rest with
    | nil => simp [get, JSON.isNull]
    | cons q rest' => simp [get]
  | cons p parts' ih =>
    cases d with
    | obj kvs =>
      simp only [get, List.cons_append] at h ⊢
      rcases hlk : lookupKey kvs p with _ | v <;> simp only [hlk] at h ⊢
      by_cases hv : v.isNull = true
      · simp [hv]
      · simp only [hv, if_false] at h ⊢
        exact ih v h
    | arr xs =>
      simp only [get, List.cons_append] at h ⊢
      rcases hpi : pyInt? p with _ | i <;> simp only [hpi] at h ⊢
      rcases hg : pyListGet? xs i with _ | v <;> simp only [hg] at h ⊢
      by_cases hv : v.isNull = true
      · simp [hv]
      · simp only [hv, if_false] at h ⊢
        exact ih v h
    | null => simp [get]
    | bool b => simp [get]
    | num n => simp [get]
    | str s => simp [get]

end DictListHelper

/-- C1 (amended): the filename encoding round-trips and is injective only on
segment sequences whose segments are nonempty and contain none of `.`, `_`,
`[`, `]`; such sequences are exactly recovered by `parse` from their joined
display path. -/
theorem claim_C1_filename_roundtrip :
    (∀ S : List String, S ≠ [] → (∀ s ∈ S, cleanSeg s) →
       pySplitDot (joinDotsS S) = S ∧ decodeToggleStem (toFilenameSeg S) = S) ∧
    (∀ S T : List String, S ≠ [] → T ≠ [] → (∀ s ∈ S, cleanSeg s) →
       (∀ s ∈ T, cleanSeg s) → toFilenameSeg S = toFilenameSeg T → S = T) := by
  constructor
  · intro S hne hclean
    exact ⟨parse_joinDotsS S hne hclean, decode_toFilenameSeg S hne hclean⟩
  · intro S T hS hT hcS hcT heq
    rw [← decode_toFilenameSeg S hS hcS, ← decode_toFilenameSeg T hT hcT, heq]

theorem claim_C1_witness :
    pySplitDot (joinDotsS ["a", "b"]) = ["a", "b"] ∧
    decodeToggleStem (toFilenameSeg ["a", "b"]) = ["a", "b"] :=
  claim_C1_filename_roundtrip.1 ["a", "b"] (by decide) (by decide)

/-- C1 is false as stated: the segment sequence `["a_b"]` is producible by
`parse`, yet decoding its filename yields `["a", "b"]`, and the filenames of
`["a_b"]` and `["a", "b"]` collide, so the encoding is neither invertible
nor injective. -/
theorem claim_C1_counterexample :
    pySplitDot "a_b" = ["a_b"] ∧
    joinDotsS ["a_b"] = "a_b" ∧
    toFilenameSeg ["a_b"] = toFilenameSeg ["a", "b"] ∧
    decodeToggleStem (toFilenameSeg ["a_b"]) = ["a", "b"] ∧
    (["a", "b"] : List String) ≠ ["a_b"] := by
  refine ⟨by decide, by decide, by decide, by decide, by decide⟩

/-- C2 (amended): toggling a path twice restores the manager exactly —
working document, document file and record set — provided every segment of
the path addresses an object key and the final key is the LAST entry of its
object (where deletion plus re-insertion-at-the-end is the identity), the
path still holds its original value, and no record for the path's stem
already exists.  (In general the restored key moves to the end of its
object, and array elements at non-final indices are lost; see the
counterexample.) -/
theorem claim_C2_toggle_twice (m : Manager) (p : String) (w : JSON)
    (hget : DictListHelper.get m.original_json_data (pySplitDot p) = some w)
    (hstore : lookupKey m.store (toggleFileStem p) = none)
    (hpath : lastKeyPath m.json_data (pySplitDot p) w)
    (hdoc : m.docFile = m.json_data) :
    toggle_node (toggle_node m p).1 p = (m, ToggleResult.reverted) := by
  obtain ⟨jd, oj, df, st⟩ := m
  dsimp only at hget hstore hpath hdoc
  subst hdoc
  obtain ⟨kvs'', hunset, hset⟩ := DictListHelper.unset_set_roundtrip _ _ _ hpath
  rw [toggle_node_out ⟨df, oj, df, st⟩ p w (JSON.obj kvs'') hget hstore hunset]
  dsimp only
  rw [toggle_node_rev
      ⟨JSON.obj kvs'', oj, JSON.obj kvs'', setKey st (toggleFileStem p) (some w)⟩
      p w w df hget (lookupKey_setKey_self _ _ _) hset]
  dsimp only
  rw [setKey_of_lookup_none _ _ _ hstore, eraseKey_append_singleton _ _ _ hstore]

theorem claim_C2_witness :
    toggle_node (toggle_node mgrAB "b").1 "b" = (mgrAB, ToggleResult.reverted) :=
  claim_C2_toggle_twice mgrAB "b" (JSON.num 2) rfl rfl
    ⟨[("a", JSON.num 1)], rfl, rfl⟩ rfl

/-- C2 is false as stated: over `{"a": 1, "b": 2}` toggling `a` twice does
revert, but the working document comes back with `a` re-inserted at the end
(`{"b": 2, "a": 1}`), so object key insertion order is not restored. -/
theorem claim_C2_counterexample :
    (toggle_node (toggle_node mgrAB "a").1 "a").2 = ToggleResult.reverted ∧
    topKeys (toggle_node (toggle_node mgrAB "a").1 "a").1.json_data = ["b", "a"] ∧
    topKeys mgrAB.json_data = ["a", "b"] ∧
    (toggle_node (toggle_node mgrAB "a").1 "a").1.json_data ≠ mgrAB.json_data := by
  refine ⟨rfl, rfl, rfl, ?_⟩
  intro h
  have h2 := congrArg topKeys h
  exact absurd h2 (by decide)

/-- C3 (amended): the record/visibility biconditional holds per operation on
the operated path — a successful toggle-out leaves a record under the path's
stem and the node absent (for object-key paths with a unique final key), and
a successful revert deletes the record (given distinct stems on disk) and
makes the node present again (for paths without negative indices).  As a
global reachable-state invariant it fails when distinct paths collide on one
stem; see the counterexample. -/
theorem claim_C3_record_iff_toggled (m : Manager) (p : String) :
    (∀ w : JSON,
       DictListHelper.get m.original_json_data (pySplitDot p) = some w →
       lookupKey m.store (toggleFileStem p) = none →
       objPathUnique m.json_data (pySplitDot p) →
       (toggle_node m p).2 = ToggleResult.toggledOut ∧
       lookupKey (toggle_node m p).1.store (toggleFileStem p) = some (some w) ∧
       DictListHelper.has (toggle_node m p).1.json_data (pySplitDot p) = false) ∧
    (∀ w sv d : JSON,
       DictListHelper.get m.original_json_data (pySplitDot p) = some w →
       lookupKey m.store (toggleFileStem p) = some (some sv) →
       DictListHelper.set m.json_data (pySplitDot p) sv = (d, DictListHelper.SetRes.ok) →
       (m.store.map Prod.fst).Nodup →
       NonNegParts (pySplitDot p) = true →
       (toggle_node m p).2 = ToggleResult.reverted ∧
       lookupKey (toggle_node m p).1.store (toggleFileStem p) = none ∧
       DictListHelper.has (toggle_node m p).1.json_data (pySplitDot p) = true) := by
  constructor
  · intro w hget hstore hOPU
    obtain ⟨kvs'', hu, hh⟩ := DictListHelper.unset_objPathUnique _ _ hOPU
    rw [toggle_node_out m p w _ hget hstore hu]
    exact ⟨rfl, lookupKey_setKey_self _ _ _, hh⟩
  · intro w sv d hget hstore hset hnod hnn
    rw [toggle_node_rev m p w sv d hget hstore hset]
    refine ⟨rfl, lookupKey_eraseKey_of_nodup _ _ hnod, ?_⟩
    have hres := DictListHelper.set_ok_has m.json_data (pySplitDot p) sv
      (by rw [hset]) hnn (pySplitDot_ne_nil p)
    rw [hset] at hres
    exact hres

theorem claim_C3_witness :
    (toggle_node mgrAB "a").2 = ToggleResult.toggledOut ∧
    lookupKey (toggle_node mgrAB "a").1.store (toggleFileStem "a") =
      some (some (JSON.num 1)) ∧
    DictListHelper.has (toggle_node mgrAB "a").1.json_data (pySplitDot "a") = false :=
  (claim_C3_record_iff_toggled mgrAB "a").1 (JSON.num 1) rfl rfl
    ⟨⟨JSON.num 1, rfl⟩, rfl⟩

/-- C3 is false as stated: over `{"a": {"b": 1}, "a_b": 2}` the paths `a_b`
and `a.b` share the filename stem `a_b`.  After toggling out `a_b` (a
reachable state), a record file exists for path `a.b`'s stem while `a.b` is
still present in the working document and resolvable in the original — the
"record exists iff toggled out" invariant is violated for `a.b`. -/
theorem claim_C3_counterexample :
    toggleFileStem "a_b" = toggleFileStem "a.b" ∧
    (toggle_node mgrCollide "a_b").2 = ToggleResult.toggledOut ∧
    lookupKey (toggle_node mgrCollide "a_b").1.store (toggleFileStem "a.b") =
      some (some (JSON.num 2)) ∧
    DictListHelper.has (toggle_node mgrCollide "a_b").1.json_data
      (pySplitDot "a.b") = true ∧
    DictListHelper.has (toggle_node mgrCollide "a_b").1.original_json_data
      (pySplitDot "a.b") = true :=
  ⟨rfl, rfl, rfl, rfl, rfl⟩

/-- C4 (amended): failing reverts are atomic — when `DictListHelper.set`
fails (or raises), the manager, its document file and the store are exactly
as before the call.  Failing toggle-outs leave the working document and the
document file unchanged, but the toggle-record file has ALREADY been written
and remains in the store, contrary to the claim as stated. -/
theorem claim_C4_failure_atomicity (m : Manager) (p : String) :
    (∀ w sv d : JSON,
       DictListHelper.get m.original_json_data (pySplitDot p) = some w →
       lookupKey m.store (toggleFileStem p) = some (some sv) →
       DictListHelper.set m.json_data (pySplitDot p) sv =
         (d, DictListHelper.SetRes.fail) →
       toggle_node m p = (m, ToggleResult.revertError)) ∧
    (∀ w sv d : JSON,
       DictListHelper.get m.original_json_data (pySplitDot p) = some w →
       lookupKey m.store (toggleFileStem p) = some (some sv) →
       DictListHelper.set m.json_data (pySplitDot p) sv =
         (d, DictListHelper.SetRes.exn) →
       toggle_node m p = (m, ToggleResult.exn)) ∧
    (∀ w : JSON,
       DictListHelper.get m.original_json_data (pySplitDot p) = some w →
       lookupKey m.store (toggleFileStem p) = none →
       DictListHelper.unset m.json_data (pySplitDot p) = none →
       toggle_node m p =
         ({ m with store := setKey m.store (toggleFileStem p) (some w) },
          ToggleResult.toggleError)) := by
  refine ⟨?_, ?_, ?_⟩
  · intro w sv d hget hstore hset
    rw [toggle_node_rev_fail m p w sv d hget hstore hset]
    have ha := DictListHelper.set_atomic m.json_data (pySplitDot p) sv (by rw [hset]; simp)
    rw [hset] at ha
    dsimp only at ha
    rw [ha]
  · intro w sv d hget hstore hset
    rw [toggle_node_rev_exn m p w sv d hget hstore hset]
    have ha := DictListHelper.set_atomic m.json_data (pySplitDot p) sv (by rw [hset]; simp)
    rw [hset] at ha
    dsimp only at ha
    rw [ha]
  · intro w hget hstore hunset
    exact toggle_node_out_fail m p w hget hstore hunset

theorem claim_C4_witness :
    toggle_node mgrNeg "a.-1" =
      ({ mgrNeg with
          store := setKey mgrNeg.store (toggleFileStem "a.-1") (some (JSON.num 5)) },
       ToggleResult.toggleError) :=
  (claim_C4_failure_atomicity mgrNeg "a.-1").2.2 (JSON.num 5) rfl rfl rfl

/-- C4 is false as stated: over `{"a": [5]}` the path `a.-1` passes the
guard (Python's negative indexing makes `get` find the element) but `unset`
rejects the negative index, so toggle-out fails — and the record file
`a_-1.json` has already been written and is left behind: the store is NOT
"exactly as before the call". -/
theorem claim_C4_counterexample :
    (toggle_node mgrNeg "a.-1").2 = ToggleResult.toggleError ∧
    mgrNeg.store = [] ∧
    (toggle_node mgrNeg "a.-1").1.store = [("a_-1", some (JSON.num 5))] ∧
    (toggle_node mgrNeg "a.-1").1.json_data = mgrNeg.json_data ∧
    (toggle_node mgrNeg "a.-1").1.docFile = mgrNeg.docFile :=
  ⟨rfl, rfl, rfl, rfl, rfl⟩

/-- C5: evidence for the code bug.  Over the repository's own demo document,
the bracketed display path `users[0].name` — exactly the form the bundled
TUI generates for array elements — is NOT recognized: `split('.')` keeps
`users[0]` as a literal dict key, the lookup fails, and `toggle_node` raises
the path error, leaving the manager untouched.  A bare digit segment
(`users.0.name`, a form no caller produces) does address the array element
and toggles it, storing `"Alice"`. -/
theorem claim_C5_bracket_paths :
    pySplitDot "users[0].name" = ["users[0]", "name"] ∧
    toggle_node mgrDemo "users[0].name" = (mgrDemo, ToggleResult.pathError) ∧
    (toggle_node mgrDemo "users.0.name").2 = ToggleResult.toggledOut ∧
    lookupKey (toggle_node mgrDemo "users.0.name").1.store "users_0_name" =
      some (some (JSON.str "Alice")) :=
  ⟨rfl, rfl, rfl, rfl⟩

/-- C6 (amended): during construction's replay, intermediate objects are
synthesized whenever the replayed path enters an absent key, so such a
record's write-back succeeds; and replay is the fold of `DictListHelper.set`
over the decodable records.  But when an existing non-container value blocks
the path the write-back fails and the record is silently skipped — the claim
that replay ALWAYS succeeds structurally is refuted by the counterexample. -/
theorem claim_C6_replay_synthesis :
    (∀ (kvs : List (String × JSON)) (p : String) (rest : List String) (v : JSON),
       lookupKey kvs p = none →
       (DictListHelper.set (JSON.obj kvs) (p :: rest) v).2 = DictListHelper.SetRes.ok) ∧
    (∀ (base : JSON) (stem : String) (v : JSON) (recs : List (String × Option JSON)),
       loadReverted base ((stem, some v) :: recs) =
         loadReverted (DictListHelper.set base (decodeToggleStem stem) v).1 recs) := by
  constructor
  · intro kvs p rest v hlk
    cases rest with
    | nil => rfl
    | cons q rest' =>
      rw [DictListHelper.set_cons₂]
      show (DictListHelper.setNav p _ (JSON.obj kvs)).2 = DictListHelper.SetRes.ok
      simp only [DictListHelper.setNav]
      rw [hlk]
      exact DictListHelper.set_fresh_ok (q :: rest') v (by simp)
  · intro base stem v recs
    rfl

theorem claim_C6_witness :
    (DictListHelper.set (JSON.obj [("a", JSON.num 5)]) ["b", "c"] (JSON.num 1)).2 =
      DictListHelper.SetRes.ok :=
  claim_C6_replay_synthesis.1 [("a", JSON.num 5)] "b" ["c"] (JSON.num 1) rfl

/-- C6 is false as stated: replaying a record for path `a.b` over the base
document `{"a": 5}` does not succeed — the scalar at `a` blocks the path, no
container is synthesized in its place, and the record's value is silently
dropped from the reconstructed original. -/
theorem claim_C6_counterexample :
    decodeToggleStem "a_b" = ["a", "b"] ∧
    loadReverted (JSON.obj [("a", JSON.num 5)]) [("a_b", some (JSON.num 1))] =
      JSON.obj [("a", JSON.num 5)] ∧
    DictListHelper.has (loadReverted (JSON.obj [("a", JSON.num 5)])
      [("a_b", some (JSON.num 1))]) ["a", "b"] = false :=
  ⟨rfl, rfl, rfl⟩

/-- C7: when a display path resolves to nothing in the original document —
neither the read lookup (`get`) nor the existence check (`has`) finds a
node — `toggle_node` raises the path error before touching anything: the
returned manager is the input manager, so the working document, the document
file and the toggle directory are all unchanged. -/
theorem claim_C7_path_not_found (m : Manager) (p : String)
    (hget : DictListHelper.get m.original_json_data (pySplitDot p) = none)
    (hhas : DictListHelper.has m.original_json_data (pySplitDot p) = false) :
    toggle_node m p = (m, ToggleResult.pathError) :=
  toggle_node_guard m p hget hhas

theorem claim_C7_witness :
    toggle_node mgrDemo "users[99].name" = (mgrDemo, ToggleResult.pathError) :=
  claim_C7_path_not_found mgrDemo "users[99].name" rfl rfl

theorem lerase_len {α : Type} (l : List α) (i : Nat) (h : i < l.length) :
    (l.eraseIdx i).length + 1 = l.length := by
  induction l generalizing i with
  | nil => simp at h
  | cons x l' ih =>
    cases i with
    | zero => simp [List.eraseIdx]
    | succ i' =>
      simp at h
      simp [List.eraseIdx]
      exact ih i' (by omega)

theorem lerase_get?_ge {α : Type} (l : List α) (i j : Nat) (h : i ≤ j) :
    (l.eraseIdx i).get? j = l.get? (j + 1) := by
  induction l generalizing i j with
  | nil => simp [List.eraseIdx]
  | cons x l' ih =>
    cases i with
    | zero => rfl
    | succ i' =>
      cases j with
      | zero => omega
      | succ j' => exact ih i' j' (by omega)

theorem lerase_get?_lt {α : Type} (l : List α) (i j : Nat) (h : j < i) :
    (l.eraseIdx i).get? j = l.get? j := by
  induction l generalizing i j with
  | nil => simp [List.eraseIdx]
  | cons x l' ih =>
    cases i with
    | zero => omega
    | succ i' =>
      cases j with
      | zero => rfl
      | succ j' => exact ih i' j' (by omega)

/-- C8: a record file whose content is not valid JSON is skipped during
construction's replay — the manager still constructs, and the reconstructed
original is exactly what it would be with the corrupt record absent, so all
remaining decodable records are replayed. -/
theorem claim_C8_corrupt_record_skipped (base : JSON)
    (pre post : List (String × Option JSON)) (stem : String) :
    (JsonToggleManager.init base (pre ++ (stem, none) :: post)).original_json_data =
      loadReverted base (pre ++ post) := by
  show loadReverted base (pre ++ (stem, none) :: post) = loadReverted base (pre ++ post)
  unfold loadReverted
  rw [List.foldl_append, List.foldl_append]
  rfl

/-- C9: (1) `get` never returns JSON `null`, so a stored null is reported
exactly like an absent node; (2) a `none` answer is absorbing — extending a
path whose prefix already answers `none` (absent, null-valued, or blocked by
a null/scalar ancestor) still answers `none`; (3) when `get` answers `none`,
`toggle_node` raises the path error precisely when the separate `has` check
also fails — for null-valued nodes the existence decision is made by `has`
alone. -/
theorem claim_C9_get_null_conflation :
    (∀ (parts : List String) (d : JSON),
       DictListHelper.get d parts ≠ some JSON.null) ∧
    (∀ (parts rest : List String) (d : JSON),
       DictListHelper.get d parts = none →
       DictListHelper.get d (parts ++ rest) = none) ∧
    (∀ (m : Manager) (p : String),
       DictListHelper.get m.original_json_data (pySplitDot p) = none →
       ((toggle_node m p).2 = ToggleResult.pathError ↔
        DictListHelper.has m.original_json_data (pySplitDot p) = false)) := by
  refine ⟨DictListHelper.get_ne_some_null,
    fun parts rest d h => DictListHelper.get_none_append parts rest d h, ?_⟩
  intro m p hget
  constructor
  · intro hres
    by_contra hh
    have hhas : DictListHelper.has m.original_json_data (pySplitDot p) = true := by
      revert hh
      cases DictListHelper.has m.original_json_data (pySplitDot p) <;> simp
    exact toggle_node_ne_pathError m p hhas hres
  · intro hhas
    rw [toggle_node_guard m p hget hhas]

theorem claim_C9_witness :
    DictListHelper.get mgrNull.original_json_data (pySplitDot "a") = none ∧
    DictListHelper.has mgrNull.original_json_data (pySplitDot "a") = true ∧
    (toggle_node mgrNull "a").2 ≠ ToggleResult.pathError := by
  refine ⟨rfl, rfl, ?_⟩
  intro h
  have h2 := (claim_C9_get_null_conflation.2.2 mgrNull "a" rfl).mp h
  exact absurd h2 (by decide)

/-- C10: toggling out follows outright deletion, not placeholder
substitution.  For a list and an in-range index the element is deleted: the
length shrinks by one, later elements shift down one position, earlier ones
stay.  For a dict the key entry is deleted outright.  Concretely, toggling
`a.1` of `{"a": [10, 20, 30]}` leaves `{"a": [10, 30]}` with the record
holding `20`. -/
theorem claim_C10_outright_deletion :
    (∀ (xs : List JSON) (s : String) (i : Nat),
       pyInt? s = some (Int.ofNat i) → i < xs.length →
       DictListHelper.unset (JSON.arr xs) [s] = some (JSON.arr (xs.eraseIdx i)) ∧
       (xs.eraseIdx i).length + 1 = xs.length ∧
       (∀ j, i ≤ j → (xs.eraseIdx i).get? j = xs.get? (j + 1)) ∧
       (∀ j, j < i → (xs.eraseIdx i).get? j = xs.get? j)) ∧
    (∀ (kvs : List (String × JSON)) (k : String) (v : JSON),
       lookupKey kvs k = some v →
       DictListHelper.unset (JSON.obj kvs) [k] = some (JSON.obj (eraseKey kvs k))) ∧
    ((toggle_node mgrList "a.1").2 = ToggleResult.toggledOut ∧
     (toggle_node mgrList "a.1").1.json_data =
       JSON.obj [("a", JSON.arr [JSON.num 10, JSON.num 30])] ∧
     lookupKey (toggle_node mgrList "a.1").1.store "a_1" = some (some (JSON.num 20))) := by
  refine ⟨?_, ?_, rfl, rfl, rfl⟩
  · intro xs s i hpi hlen
    refine ⟨?_, lerase_len xs i hlen,
      fun j hj => lerase_get?_ge xs i j hj, fun j hj => lerase_get?_lt xs i j hj⟩
    show DictListHelper.unsetFinal (JSON.arr xs) s = some (JSON.arr (xs.eraseIdx i))
    unfold DictListHelper.unsetFinal
    simp only [hpi]
    rw [if_pos ⟨Int.ofNat_nonneg i, by simpa using hlen⟩]
    simp
  · intro kvs k v hv
    show DictListHelper.unsetFinal (JSON.obj kvs) k = some (JSON.obj (eraseKey kvs k))
    unfold DictListHelper.unsetFinal
    simp [hv]

theorem claim_C10_witness :
    DictListHelper.unset (JSON.arr [JSON.num 10, JSON.num 20, JSON.num 30]) ["1"] =
      some (JSON.arr [JSON.num 10, JSON.num 30]) ∧
    DictListHelper.unset (JSON.obj [("x", JSON.num 1)]) ["x"] = some (JSON.obj []) := by
  constructor
  · exact (claim_C10_outright_deletion.1 [JSON.num 10, JSON.num 20, JSON.num 30]
      "1" 1 rfl (by decide)).1
  · exact claim_C10_outright_deletion.2.1 [("x", JSON.num 1)] "x" (JSON.num 1) rfl
